import Mathlib

/-!
Verification of the StormByte streaming byte-buffer subsystem.

The development shallowly embeds the buffer family of the StormByte
library: the single-threaded byte store `StormByte.Buffer.Simple`
(src/lib/public/StormByte/buffer/simple.hxx), the lifecycle `Status`
enum, the producer-side status forwarding
(src/lib/public/StormByte/buffer/producer.cxx), the reentrant
`ThreadLock` (src/lib/public/StormByte/thread_lock.cxx) and the legacy
`StormByte::Util::Buffer` (src/lib/public/StormByte/util/buffer.hxx).

Byte data is modelled as `List Nat`, read positions as `Nat`, and the
fallible operations (`Extract`, `Read`, `Peek`) return
`Except BufferOverflow`, mirroring the C++ `ExpectedData<BufferOverflow>`
return type declared in simple.hxx.

The repository snapshot ships the buffer headers (declarations plus
contract documentation) but not the out-of-line member definitions of
`Simple`, `Shared`, `External` or `Util::Buffer`; where an operation's
body is absent its Lean definition is modelled from the specification
text and is marked as such in its doc comment.
-/

namespace StormByte

/-- A byte, as stored in std::vector of std::byte. -/
abbrev Byte := Nat

namespace Buffer

/-- The buffer lifecycle status enum, totally ordered
Ready < ReadOnly < EoF < Error. -/
inductive Status where
| Ready
| ReadOnly
| EoF
| Error
deriving DecidableEq, Repr

/-- Numeric rank of a Status used for the total order
Ready < ReadOnly < EoF < Error. -/
def Status.toNat : Status → Nat
| .Ready => 0
| .ReadOnly => 1
| .EoF => 2
| .Error => 3

/-- The BufferOverflow error returned by fallible read-style operations;
mirrors ExpectedData of BufferOverflow in simple.hxx: no other error kind
can cross the Extract/Read boundary. -/
inductive BufferOverflow where
| overflow
deriving DecidableEq, Repr

/-- The Read::Position enum used by Seek and Discard in simple.hxx. -/
inductive ReadPosition where
| Begin
| End
| Relative
| Absolute
deriving DecidableEq, Repr

/-- The StormByte::Buffer::Simple byte store: stored bytes m_data, read
cursor m_position and the growth hint m_minimum_chunk_size
(simple.hxx lines 420-423). -/
structure Simple where
  data : List Byte
  position : Nat
  minChunkSize : Nat
deriving DecidableEq, Repr

/-- An empty Simple buffer, as produced by the default constructor. -/
def Simple.empty : Simple := ⟨[], 0, 0⟩

/-- AvailableBytes: bytes available to read from the current position
(spec section 3: AvailableBytes() == data.length - position). -/
def Simple.availableBytes (b : Simple) : Nat := b.data.length - b.position

/-- Modelled from the spec: the body of Simple::operator<< appending a
byte vector is not in the snapshot; per spec section 4.1 Append grows
data and never moves position (the header doc at simple.hxx lines
114-119 states the same). -/
def Simple.appendData (b : Simple) (d : List Byte) : Simple :=
  { b with data := b.data ++ d }

/-- Modelled from the spec: Simple::operator<< for std::string appends
the string's bytes and never moves position (spec section 4.1). The
string payload is given as its byte sequence. -/
def Simple.appendString (b : Simple) (s : List Byte) : Simple :=
  { b with data := b.data ++ s }

/-- Modelled from the spec: Simple::operator<< appending another buffer
appends the other buffer's stored bytes and never moves position
(spec section 4.1). -/
def Simple.appendSimple (b : Simple) (other : Simple) : Simple :=
  { b with data := b.data ++ other.data }

/-- The raw in-memory representation of a numeric value of byte width w,
host-native little-endian: byte i is (v / 256 ^ i) % 256. -/
def rawBytes (w v : Nat) : List Byte :=
  (List.range w).map (fun i => v / 256 ^ i % 256)

/-- The numeric append of simple.hxx lines 161-166: m_data.insert at the
end of the sizeof(NumericType) bytes of the value's in-memory
representation; m_position is untouched. The value is given by its byte
width w and numeric value v. -/
def Simple.appendNumeric (b : Simple) (w v : Nat) : Simple :=
  { b with data := b.data ++ rawBytes w v }

/-- Modelled from the spec: the body of Simple::Extract is not in the
snapshot; per spec section 4.1 Extract(length) returns ownership of
length bytes and removes them from the front of the unread region,
failing with Overflow if position + length > data.length. The removal
keeps the already-read prefix and deletes the extracted bytes, so the
position keeps addressing the new front of the unread region. -/
def Simple.extract (b : Simple) (len : Nat) : Except BufferOverflow (List Byte × Simple) :=
  if b.position + len ≤ b.data.length then
    .ok ((b.data.drop b.position).take len,
      { b with data := b.data.take b.position ++ b.data.drop (b.position + len) })
  else
    .error .overflow

/-- Modelled from the spec: the body of Simple::Read is not in the
snapshot; per spec section 4.1 Read(length) returns a copy of length
bytes starting at position, fails with Overflow if
position + length > data.length, and does not mutate data; per the
header doc at simple.hxx lines 312-318 the read position is advanced by
the requested length. -/
def Simple.read (b : Simple) (len : Nat) : Except BufferOverflow (List Byte × Simple) :=
  if b.position + len ≤ b.data.length then
    .ok ((b.data.drop b.position).take len, { b with position := b.position + len })
  else
    .error .overflow

/-- The signed target position a Seek call aims at, per mode: Begin and
Absolute measure from the start of the buffer, End from past-the-end,
Relative from the current position. The per-mode arithmetic follows the
usual seek conventions; the spec fixes only the mode set and the
clamping behaviour. -/
def seekTarget (b : Simple) (off : Int) (mode : ReadPosition) : Int :=
  match mode with
  | .Begin => off
  | .End => (b.data.length : Int) + off
  | .Relative => (b.position : Int) + off
  | .Absolute => off

/-- Modelled from the spec: the body of Simple::Seek is not in the
snapshot; per spec section 4.1 Seek repositions position and
out-of-range targets clamp to the interval from 0 to data.length, so a
Seek never fails. -/
def Simple.seek (b : Simple) (off : Int) (mode : ReadPosition) : Simple :=
  { b with position := (min (max (seekTarget b off mode) 0) (b.data.length : Int)).toNat }

/-- Modelled from the spec: the status transition applied when a
producer sets the status (Producer::operator<< at producer.cxx lines
26-30 forwards to the Shared buffer, whose body is not in the
snapshot). Per spec sections 3 and 4.4: EoF and Error are terminal (no
transition leaves them) and the status is monotonically non-decreasing,
a requested regression being a no-op. -/
def setStatus (current requested : Status) : Status :=
  match current with
  | .EoF => .EoF
  | .Error => .Error
  | c => if requested.toNat < c.toNat then c else requested

/-- Outcome of one decision round of the blocking consumer extract. -/
inductive ExtractOutcome where
| returned (bytes : List Byte) (rest : Simple)
| block
| failInsufficient
| failProducerError
deriving DecidableEq, Repr

/-- Modelled from the spec: the blocking Consumer::Extract decision on a
status-tracking (Async) buffer is not in the snapshot; per spec
section 4.4 the consumer (1) returns the bytes at once when enough are
available, (2) suspends when the status is Ready and data is short,
(3) fails terminally when the status reached ReadOnly or EoF with too
little data, and (4) fails with the producer's error when the status is
Error. -/
def blockingExtractStep (st : Status) (b : Simple) (len : Nat) : ExtractOutcome :=
  if len ≤ b.availableBytes then
    match b.extract len with
    | .ok (bytes, rest) => .returned bytes rest
    | .error _ => .failInsufficient
  else
    match st with
    | .Ready => .block
    | .ReadOnly => .failInsufficient
    | .EoF => .failInsufficient
    | .Error => .failProducerError

/-- Modelled from the spec: an External-mode buffer owns a polymorphic
supplier whose Supply() yields a chunk of bytes or a terminal failure
(spec sections 3 and 4.3). The supplier is embedded as the list of
chunks it will still yield before reporting terminal failure, alongside
the wrapped byte store and the buffer status. -/
structure External where
  buffer : Simple
  pending : List (List Byte)
  status : Status
deriving DecidableEq, Repr

/-- Modelled from the spec: the External-mode refill loop (spec section
4.3) repeatedly invokes Supply() and appends each returned chunk until
at least n bytes are available or Supply() reports terminal failure;
returns the refilled byte store and the chunks the supplier still
holds. -/
def refillLoop (b : Simple) (pending : List (List Byte)) (n : Nat) :
    Simple × List (List Byte) :=
  if n ≤ b.availableBytes then (b, pending)
  else
    match pending with
    | [] => (b, [])
    | c :: rest => refillLoop (b.appendData c) rest n

/-- Modelled from the spec: Extract on an External-mode buffer first
runs the refill loop, then performs the ordinary Extract; a supplier
terminal failure surfaces as the BufferOverflow of the failed Extract,
never as an error kind of its own, and the buffer status is not
touched (spec section 4.3: failure isolation). -/
def External.extract (e : External) (n : Nat) :
    Except BufferOverflow (List Byte) × External :=
  match refillLoop e.buffer e.pending n with
  | (refilled, rest) =>
    match refilled.extract n with
    | .ok (bytes, remaining) => (.ok bytes, ⟨remaining, rest, e.status⟩)
    | .error err => (.error err, ⟨refilled, rest, e.status⟩)

end Buffer

/-- Result of a ThreadLock::Lock attempt by one thread: either the call
completes with the resulting owner state, or the caller blocks on the
main mutex until the owner releases. -/
inductive LockResult where
| acquired (owner : Option Nat)
| blocked
deriving DecidableEq, Repr

/-- One Lock() step of StormByte::ThreadLock (thread_lock.cxx lines
7-24), on the abstract state m_owner_thread_id : Option of thread id.
The fast path returns at once, unchanged, when the calling thread t
already owns the lock; when nobody owns it the caller acquires the main
mutex and records itself as owner; when another thread owns it the
caller blocks on the main mutex. -/
def ThreadLock.lockStep (owner : Option Nat) (t : Nat) : LockResult :=
  match owner with
  | some o => if o = t then .acquired (some o) else .blocked
  | none => .acquired (some t)

/-- One Unlock() step of StormByte::ThreadLock (thread_lock.cxx lines
26-40): a caller that is not the owner (including when nobody owns the
lock) returns without changing state; the owner fully clears
m_owner_thread_id and releases the main mutex. -/
def ThreadLock.unlockStep (owner : Option Nat) (t : Nat) : Option Nat :=
  match owner with
  | some o => if o = t then none else some o
  | none => none

namespace Util

/-- The legacy StormByte::Util::Buffer (util/buffer.hxx lines 20-251):
stored bytes m_data and a mutable read position m_position. -/
structure Buffer where
  data : List StormByte.Byte
  position : Nat
deriving DecidableEq, Repr

/-- Util::Buffer::operator== (util/buffer.hxx lines 112-114): compares
m_data with the other buffer's m_data; the read positions play no
part. -/
def Buffer.eqOp (a b : Buffer) : Bool := decide (a.data = b.data)

/-- Util::Buffer::operator!= (util/buffer.hxx lines 121-123): the
negation of operator==. -/
def Buffer.neOp (a b : Buffer) : Bool := !(Buffer.eqOp a b)

end Util

end StormByte

namespace StormByte.Buffer

/-- C1: appending a byte sequence S to an otherwise-empty buffer and
extracting S.length bytes returns exactly S (and leaves the buffer
empty). -/
theorem extract_append_roundtrip (S : List Byte) :
    (Simple.empty.appendData S).extract S.length = .ok (S, Simple.empty) := by
  simp [Simple.empty, Simple.appendData, Simple.extract]

/-- C2: for n > 0, Extract(n) with exactly n-1 available bytes fails
with Overflow; with exactly n available bytes it succeeds, returns
those n unread bytes, removes them from the unread region (only the
already-read prefix remains stored) and leaves 0 bytes available. -/
theorem extract_boundary (n : Nat) (hn : 0 < n) (b : Simple) :
    (b.availableBytes = n - 1 → b.extract n = .error .overflow) ∧
    (b.availableBytes = n →
      b.extract n = .ok (b.data.drop b.position,
        Simple.mk (b.data.take b.position) b.position b.minChunkSize) ∧
      (b.data.drop b.position).length = n ∧
      (Simple.mk (b.data.take b.position) b.position b.minChunkSize).availableBytes = 0) := by
  constructor
  · intro h
    simp only [Simple.availableBytes] at h
    have hgt : ¬ (b.position + n ≤ b.data.length) := by omega
    simp [Simple.extract, hgt]
  · intro h
    simp only [Simple.availableBytes] at h
    have hpos : b.position ≤ b.data.length := by omega
    have hsum : b.position + n = b.data.length := by omega
    have hle : b.position + n ≤ b.data.length := by omega
    refine ⟨?_, ?_, ?_⟩
    · simp only [Simple.extract, if_pos hle]
      have hdrop : (b.data.drop b.position).take n = b.data.drop b.position := by
        apply List.take_of_length_le
        simp [List.length_drop]
        omega
      have hnil : b.data.drop (b.position + n) = [] := by
        apply List.drop_eq_nil_of_le
        omega
      rw [hdrop, hnil]
      simp
    · simp [List.length_drop]
      omega
    · simp only [Simple.availableBytes, List.length_take]
      omega

/-- C2 witness: the boundary theorem instantiated at n = 2 on the
buffer holding bytes 7, 8 with one byte already read: extracting 2 of
the 1 available bytes overflows, while on the buffer holding 7, 8, 9
with one byte read the same extraction succeeds and drains it. -/
theorem extract_boundary_witness :
    ((Simple.mk [7, 8] 1 0).extract 2 = .error .overflow) ∧
    ((Simple.mk [7, 8, 9] 1 0).extract 2 = .ok ([8, 9], Simple.mk [7] 1 0)) ∧
    (Simple.mk [7] 1 0).availableBytes = 0 := by
  refine ⟨(extract_boundary 2 (by decide) (Simple.mk [7, 8] 1 0)).1 (by decide), ?_, ?_⟩
  · exact ((extract_boundary 2 (by decide) (Simple.mk [7, 8, 9] 1 0)).2 (by decide)).1
  · exact ((extract_boundary 2 (by decide) (Simple.mk [7, 8, 9] 1 0)).2 (by decide)).2.2

/-- C6: every append operation (byte vector, string, other buffer,
numeric value) is infallible (a total function on buffers), leaves the
read position unchanged and grows the stored data by exactly the
appended payload; for a numeric value of byte width w the payload is
the w bytes of the value's host-native in-memory representation. -/
theorem append_contract (b : Simple) (d s : List Byte) (o : Simple) (w v : Nat) :
    ((b.appendData d).data = b.data ++ d ∧ (b.appendData d).position = b.position) ∧
    ((b.appendString s).data = b.data ++ s ∧ (b.appendString s).position = b.position) ∧
    ((b.appendSimple o).data = b.data ++ o.data ∧ (b.appendSimple o).position = b.position) ∧
    ((b.appendNumeric w v).data = b.data ++ rawBytes w v ∧
      (b.appendNumeric w v).position = b.position ∧ (rawBytes w v).length = w) := by
  simp [Simple.appendData, Simple.appendString, Simple.appendSimple,
    Simple.appendNumeric, rawBytes]

/-- C7: Read(length) succeeds exactly when position + length fits in
the stored data, returning a copy of length bytes starting at the read
position and leaving the stored bytes unchanged; otherwise it fails
with Overflow (and, being a copy, never mutates data). -/
theorem read_contract (b : Simple) (len : Nat) :
    (b.position + len ≤ b.data.length →
      b.read len = .ok ((b.data.drop b.position).take len,
        Simple.mk b.data (b.position + len) b.minChunkSize) ∧
      ((b.data.drop b.position).take len).length = len ∧
      (Simple.mk b.data (b.position + len) b.minChunkSize).data = b.data) ∧
    (b.data.length < b.position + len → b.read len = .error .overflow) := by
  constructor
  · intro h
    refine ⟨by simp [Simple.read, if_pos h], ?_, rfl⟩
    simp [List.length_take, List.length_drop]
    omega
  · intro h
    have hgt : ¬ (b.position + len ≤ b.data.length) := by omega
    simp [Simple.read, hgt]

/-- C7 witness: reading 2 bytes of the buffer holding 1, 2, 3 with one
byte already read copies bytes 2, 3, keeps the data intact and advances
the position; reading 3 bytes overflows. -/
theorem read_contract_witness :
    ((Simple.mk [1, 2, 3] 1 0).read 2 = .ok ([2, 3], Simple.mk [1, 2, 3] 3 0)) ∧
    ((Simple.mk [1, 2, 3] 1 0).read 3 = .error .overflow) := by
  constructor
  · exact ((read_contract (Simple.mk [1, 2, 3] 1 0) 2).1 (by decide)).1
  · exact (read_contract (Simple.mk [1, 2, 3] 1 0) 3).2 (by decide)

/-- C8: Seek never fails (it is a total function), clamps the computed
target to the interval from 0 to data.length, preserves in-range
targets exactly, and re-establishes the invariant
position ≤ data.length for every offset and every mode. -/
theorem seek_contract (b : Simple) (off : Int) (mode : ReadPosition) :
    (b.seek off mode).position ≤ b.data.length ∧
    (seekTarget b off mode < 0 → (b.seek off mode).position = 0) ∧
    ((b.data.length : Int) < seekTarget b off mode →
      (b.seek off mode).position = b.data.length) ∧
    (0 ≤ seekTarget b off mode → seekTarget b off mode ≤ (b.data.length : Int) →
      ((b.seek off mode).position : Int) = seekTarget b off mode) := by
  simp only [Simple.seek]
  refine ⟨?_, ?_, ?_, ?_⟩ <;> omega

/-- C8 witness: on the buffer holding bytes 1, 2, 3, the Seek contract
instantiated at a negative absolute target (clamps to 0), a
past-the-end relative target (clamps to 3) and an in-range Begin
target (lands exactly at 2). -/
theorem seek_contract_witness :
    ((Simple.mk [1, 2, 3] 0 0).seek (-5) .Absolute).position = 0 ∧
    ((Simple.mk [1, 2, 3] 2 0).seek 7 .Relative).position = 3 ∧
    (((Simple.mk [1, 2, 3] 0 0).seek 2 .Begin).position : Int) = 2 := by
  refine ⟨(seek_contract (Simple.mk [1, 2, 3] 0 0) (-5) .Absolute).2.1 (by decide), ?_, ?_⟩
  · exact (seek_contract (Simple.mk [1, 2, 3] 2 0) 7 .Relative).2.2.1 (by decide)
  · exact (seek_contract (Simple.mk [1, 2, 3] 0 0) 2 .Begin).2.2.2 (by decide) (by decide)

/-- C3: the producer-side status transition never decreases the status
in the order Ready < ReadOnly < EoF < Error, leaves the terminal states
EoF and Error fixed, treats a requested regression as a no-op, and over
any sequence of requested transitions the status stays monotonically
non-decreasing. -/
theorem status_monotone :
    (∀ c r : Status, c.toNat ≤ (setStatus c r).toNat) ∧
    (∀ r : Status, setStatus .EoF r = .EoF) ∧
    (∀ r : Status, setStatus .Error r = .Error) ∧
    (∀ (ops : List Status) (c : Status), c.toNat ≤ (ops.foldl setStatus c).toNat) ∧
    (∀ c r : Status, r.toNat < c.toNat → setStatus c r = c) := by
  have hmono : ∀ c r : Status, c.toNat ≤ (setStatus c r).toNat := by
    intro c r
    cases c <;> cases r <;> decide
  refine ⟨hmono, fun r => rfl, fun r => rfl, ?_, ?_⟩
  · intro ops
    induction ops with
    | nil => intro c; simp
    | cons r rest ih =>
      intro c
      exact le_trans (hmono c r) (ih (setStatus c r))
  · intro c r h
    cases c <;> cases r <;> first | rfl | (exfalso; revert h; decide)

/-- C3 witness: requesting Ready while the status is ReadOnly is a
no-op, and a concrete request sequence starting at Ready never drops
the status rank. -/
theorem status_monotone_witness :
    setStatus .ReadOnly .Ready = .ReadOnly ∧
    Status.toNat .Ready ≤ (List.foldl setStatus .Ready [.ReadOnly, .Ready, .EoF]).toNat := by
  constructor
  · exact status_monotone.2.2.2.2 .ReadOnly .Ready (by decide)
  · exact status_monotone.2.2.2.1 [.ReadOnly, .Ready, .EoF] .Ready

/-- C4: the blocking consumer extract suspends exactly when the status
is Ready and fewer than the requested bytes are available; with too few
bytes available and status ReadOnly or EoF it returns the terminal
insufficient-data failure, and with status Error it returns the
producer-error failure — never a block. -/
theorem blocking_extract_contract :
    (∀ (st : Status) (b : Simple) (len : Nat),
      blockingExtractStep st b len = .block ↔ st = .Ready ∧ b.availableBytes < len) ∧
    (∀ (st : Status) (b : Simple) (len : Nat), b.availableBytes < len →
      ((st = .ReadOnly ∨ st = .EoF) → blockingExtractStep st b len = .failInsufficient) ∧
      (st = .Error → blockingExtractStep st b len = .failProducerError)) := by
  constructor
  · intro st b len
    by_cases h : len ≤ b.availableBytes
    · cases hx : b.extract len with
      | ok out => simp [blockingExtractStep, if_pos h, hx]; omega
      | error err => simp [blockingExtractStep, if_pos h, hx]; omega
    · cases st with
      | Ready => simp [blockingExtractStep, if_neg h]; omega
      | ReadOnly => simp [blockingExtractStep, if_neg h]
      | EoF => simp [blockingExtractStep, if_neg h]
      | Error => simp [blockingExtractStep, if_neg h]
  · intro st b len h
    have hn : ¬ len ≤ b.availableBytes := by omega
    constructor
    · rintro (rfl | rfl) <;> simp [blockingExtractStep, if_neg hn]
    · rintro rfl
      simp [blockingExtractStep, if_neg hn]

/-- C4 witness: the contract on an empty Ready buffer asked for one
byte (blocks), on an empty ReadOnly buffer (fails with insufficient
data) and on an empty Error buffer (fails with the producer error). -/
theorem blocking_extract_contract_witness :
    blockingExtractStep .Ready Simple.empty 1 = .block ∧
    blockingExtractStep .ReadOnly Simple.empty 1 = .failInsufficient ∧
    blockingExtractStep .Error Simple.empty 1 = .failProducerError := by
  refine ⟨(blocking_extract_contract.1 .Ready Simple.empty 1).mpr (by decide), ?_, ?_⟩
  · exact (blocking_extract_contract.2 .ReadOnly Simple.empty 1 (by decide)).1 (Or.inl rfl)
  · exact (blocking_extract_contract.2 .Error Simple.empty 1 (by decide)).2 rfl

/-- The refill loop never moves the read position of the wrapped byte
store: it only appends supplied chunks. -/
theorem refillLoop_position (pending : List (List Byte)) (b : Simple) (n : Nat) :
    (refillLoop b pending n).1.position = b.position := by
  induction pending generalizing b with
  | nil =>
    rw [refillLoop]
    split <;> rfl
  | cons c rest ih =>
    rw [refillLoop]
    split
    · rfl
    · exact (ih (b.appendData c)).trans rfl

/-- The refill loop only grows the stored data of the wrapped byte
store. -/
theorem refillLoop_data_le (pending : List (List Byte)) (b : Simple) (n : Nat) :
    b.data.length ≤ (refillLoop b pending n).1.data.length := by
  induction pending generalizing b with
  | nil =>
    rw [refillLoop]
    split <;> simp
  | cons c rest ih =>
    rw [refillLoop]
    split
    · simp
    · refine le_trans ?_ (ih (b.appendData c))
      simp [Simple.appendData]

/-- The refill loop stops only once enough bytes are available or the
supplier reported terminal failure (no chunks remain). -/
theorem refillLoop_enough_or_exhausted (pending : List (List Byte)) (b : Simple) (n : Nat) :
    n ≤ (refillLoop b pending n).1.availableBytes ∨ (refillLoop b pending n).2 = [] := by
  induction pending generalizing b with
  | nil =>
    rw [refillLoop]
    split
    · left; assumption
    · right; rfl
  | cons c rest ih =>
    rw [refillLoop]
    split
    · left; assumption
    · exact ih (b.appendData c)

/-- Unfolding equation for External.extract in terms of the refill
loop result. -/
theorem External.extract_eq (e : External) (n : Nat) :
    e.extract n =
      match (refillLoop e.buffer e.pending n).1.extract n with
      | .ok (bytes, remaining) =>
          (.ok bytes, ⟨remaining, (refillLoop e.buffer e.pending n).2, e.status⟩)
      | .error err =>
          (.error err,
            ⟨(refillLoop e.buffer e.pending n).1, (refillLoop e.buffer e.pending n).2,
              e.status⟩) := rfl

/-- C5: on an External-mode buffer satisfying the read-position
invariant, Extract(n) first runs the refill loop; afterwards either at
least n bytes are available and the extraction returns n bytes, or the
supplier is exhausted with fewer than n bytes and the extraction fails
with Overflow; in every case the only possible error kind is Overflow
(a supplier terminal failure is never propagated as its own error) and
the buffer status is left untouched, so Error is never set. -/
theorem external_extract_contract (e : External) (n : Nat)
    (hinv : e.buffer.position ≤ e.buffer.data.length) :
    (e.extract n).2.status = e.status ∧
    (∀ err, (e.extract n).1 = Except.error err → err = BufferOverflow.overflow) ∧
    ((n ≤ (refillLoop e.buffer e.pending n).1.availableBytes ∧
      (e.extract n).1 =
        .ok (((refillLoop e.buffer e.pending n).1.data.drop e.buffer.position).take n) ∧
      (((refillLoop e.buffer e.pending n).1.data.drop e.buffer.position).take n).length = n) ∨
     ((refillLoop e.buffer e.pending n).2 = [] ∧
      (refillLoop e.buffer e.pending n).1.availableBytes < n ∧
      (e.extract n).1 = .error .overflow)) := by
  have hpos := refillLoop_position e.pending e.buffer n
  have hlen := refillLoop_data_le e.pending e.buffer n
  have halt := refillLoop_enough_or_exhausted e.pending e.buffer n
  have hext := External.extract_eq e n
  set r := refillLoop e.buffer e.pending n with hr
  by_cases hav : n ≤ r.1.availableBytes
  · have hcond : e.buffer.position + n ≤ r.1.data.length := by
      simp only [Simple.availableBytes] at hav
      omega
    rw [hext]
    simp only [Simple.extract, hpos, if_pos hcond]
    refine ⟨by trivial, by simp, Or.inl ⟨hav, by trivial, ?_⟩⟩
    simp only [Simple.availableBytes] at hav
    simp only [List.length_take, List.length_drop]
    omega
  · have hexh : r.2 = [] := by
      rcases halt with h | h
      · exact absurd h hav
      · exact h
    have hinv2 : r.1.position ≤ r.1.data.length := by
      rw [hpos]; exact le_trans hinv hlen
    have hcond : ¬ (e.buffer.position + n ≤ r.1.data.length) := by
      simp only [Simple.availableBytes] at hav
      omega
    rw [hext]
    simp only [Simple.extract, hpos, if_neg hcond]
    refine ⟨by trivial, ?_, Or.inr ⟨hexh, by omega, by trivial⟩⟩
    intro err herr
    cases err
    trivial

/-- C5 witness: a supplier holding one 5-byte chunk refills an empty
buffer so Extract(5) succeeds with those bytes and the status stays
Ready; with the supplier already exhausted, Extract(5) on the empty
buffer fails with Overflow. -/
theorem external_extract_contract_witness :
    ((External.mk Simple.empty [[1, 2, 3, 4, 5]] .Ready).extract 5).2.status = .Ready ∧
    ((External.mk Simple.empty [[1, 2, 3, 4, 5]] .Ready).extract 5).1 = .ok [1, 2, 3, 4, 5] ∧
    ((External.mk Simple.empty [] .Ready).extract 5).1 = .error .overflow := by
  have h := external_extract_contract (External.mk Simple.empty [[1, 2, 3, 4, 5]] .Ready) 5
    (by decide)
  have h2 := external_extract_contract (External.mk Simple.empty [] .Ready) 5 (by decide)
  refine ⟨h.1, ?_, ?_⟩
  · rcases h.2.2 with ⟨_, hb, _⟩ | ⟨_, hav, _⟩
    · exact hb.trans (by rfl)
    · exfalso
      revert hav
      decide
  · rcases h2.2.2 with ⟨hav, _, _⟩ | ⟨_, _, hb⟩
    · exfalso
      revert hav
      decide
    · exact hb

end StormByte.Buffer

namespace StormByte

/-- C9: the ThreadLock state machine on the optional owning thread id:
a Lock by the current owner completes immediately with the state
unchanged; an Unlock by a non-owner (including when nobody owns the
lock) is a no-op; an Unlock by the owner fully clears ownership, after
which a Lock by any thread acquires afresh. -/
theorem threadlock_contract :
    (∀ t : Nat, ThreadLock.lockStep (some t) t = .acquired (some t)) ∧
    (∀ (s : Option Nat) (t : Nat), s ≠ some t → ThreadLock.unlockStep s t = s) ∧
    (∀ t : Nat, ThreadLock.unlockStep (some t) t = none) ∧
    (∀ u : Nat, ThreadLock.lockStep none u = .acquired (some u)) := by
  refine ⟨fun t => by simp [ThreadLock.lockStep], ?_, fun t => by simp [ThreadLock.unlockStep],
    fun u => rfl⟩
  intro s t h
  cases s with
  | none => rfl
  | some o =>
    have ho : o ≠ t := fun he => h (by rw [he])
    simp [ThreadLock.unlockStep, ho]

/-- C9 witness: thread 3 re-locking its own lock keeps ownership;
thread 4 unlocking a lock owned by thread 3 changes nothing; thread 3
unlocking clears ownership and thread 4 can then acquire. -/
theorem threadlock_contract_witness :
    ThreadLock.lockStep (some 3) 3 = .acquired (some 3) ∧
    ThreadLock.unlockStep (some 3) 4 = some 3 ∧
    ThreadLock.unlockStep (some 3) 3 = none ∧
    ThreadLock.lockStep none 4 = .acquired (some 4) := by
  refine ⟨threadlock_contract.1 3, ?_, threadlock_contract.2.2.1 3, threadlock_contract.2.2.2 4⟩
  exact threadlock_contract.2.1 (some 3) 4 (by decide)

/-- C10: Util::Buffer equality compares exactly the stored byte
sequences, ignoring the read positions (buffers holding identical
bytes at different positions compare equal), and operator!= is the
exact negation of operator==. -/
theorem util_buffer_eq_contract :
    (∀ a b : Util.Buffer, Util.Buffer.eqOp a b = true ↔ a.data = b.data) ∧
    (∀ (d : List Byte) (p q : Nat),
      Util.Buffer.eqOp (Util.Buffer.mk d p) (Util.Buffer.mk d q) = true) ∧
    (∀ a b : Util.Buffer, Util.Buffer.neOp a b = true ↔ ¬ Util.Buffer.eqOp a b = true) := by
  refine ⟨fun a b => by simp [Util.Buffer.eqOp], fun d p q => by simp [Util.Buffer.eqOp],
    fun a b => by simp [Util.Buffer.neOp]⟩

/-- C10 witness: two buffers holding bytes 1, 2 at positions 0 and 2
compare equal, and inequality is the negation on a concrete unequal
pair. -/
theorem util_buffer_eq_contract_witness :
    Util.Buffer.eqOp (Util.Buffer.mk [1, 2] 0) (Util.Buffer.mk [1, 2] 2) = true ∧
    (Util.Buffer.neOp (Util.Buffer.mk [1] 0) (Util.Buffer.mk [2] 0) = true ↔
      ¬ Util.Buffer.eqOp (Util.Buffer.mk [1] 0) (Util.Buffer.mk [2] 0) = true) := by
  exact ⟨util_buffer_eq_contract.2.1 [1, 2] 0 2,
    util_buffer_eq_contract.2.2 (Util.Buffer.mk [1] 0) (Util.Buffer.mk [2] 0)⟩

end StormByte
